import Mathlib

/-!
Verification of `phased/templatetags/phased_tags.py` (django-phased).

The Django template machinery (token streams, contexts, the fragment
cache) is shallowly embedded: tokens are a type/contents pair, a
rendering context is a chain of name-to-value layers, and storage is an
insertion-ordered association list.  Functions of the repository that
live outside the single source file under verification
(`phased/utils.py`: `pickle_context`, `flatten_context`,
`backup_csrf_token`, `second_pass_render`) are modelled from the spec,
as are the external Django collaborators (variable resolution,
`CacheNode.render`); each such definition says so in its doc comment.
-/

/-- Token types of the Django lexer: `TOKEN_TEXT`, `TOKEN_VAR`,
`TOKEN_BLOCK`, `TOKEN_COMMENT`. -/
inductive TokenType where
  | text
  | var
  | block
  | comment
deriving DecidableEq

/-- A Django template token: its type and its (already lexed) contents. -/
structure Token where
  token_type : TokenType
  contents : String
deriving DecidableEq

/-- Errors raised by the source file: `TemplateSyntaxError` in its various
guises, and the `KeyError` from the unconditional lookup of
`context["request"]` in `PhasedCacheNode.render`. -/
inductive Err where
  | unclosedBlockTag (expected : List String)
  | unknownVariable (name : String)
  | secondArgumentMustBeWith
  | atLeastOneContextVariable
  | requestKeyError
deriving DecidableEq

deriving instance DecidableEq for Except

/-- The depth change a token causes in `parse`: a block token with
contents exactly `phased` increments, a block token with contents exactly
`endphased` decrements, every other token leaves the depth unchanged. -/
def tokenDelta (t : Token) : Int :=
  if t.token_type = TokenType.block then
    if t.contents = "phased" then 1
    else if t.contents = "endphased" then -1
    else 0
  else 0

/-- The loop of `parse`: walks the remaining tokens with the running
depth, and returns the yielded tokens, the tokens left in the parser, and
the final depth.  The loop body updates the depth from the token and
breaks, without yielding, as soon as the depth goes negative; the broken
token has already been taken off the stream by `parser.next_token()`. -/
def parseAux : Int → List Token → List Token × List Token × Int
  | depth, [] => ([], [], depth)
  | depth, t :: rest =>
    let depth1 := depth + tokenDelta t
    if depth1 < 0 then ([], rest, depth1)
    else
      let r := parseAux depth1 rest
      (t :: r.1, r.2.1, r.2.2)

/-- `parse(parser)` of `phased_tags.py`: yield tokens up to the matching
`endphased`, and call `parser.unclosed_block_tag(("endphased",))` when
the stream ran out while the depth was still non-negative.  Returns the
yielded tokens together with the tokens left on the parser. -/
def parse (tokens : List Token) : Except Err (List Token × List Token) :=
  let r := parseAux 0 tokens
  if r.2.1 = [] ∧ 0 ≤ r.2.2 then Except.error (Err.unclosedBlockTag ["endphased"])
  else Except.ok (r.1, r.2.1)

/-- The `{% phased %}` opener token. -/
def phasedToken : Token := ⟨TokenType.block, "phased"⟩

/-- The `{% endphased %}` terminator token. -/
def endphasedToken : Token := ⟨TokenType.block, "endphased"⟩

/-- Total depth change of a token list (spec side: number of `phased`
openers minus number of `endphased` closers). -/
def listDelta : List Token → Int
  | [] => 0
  | t :: ts => tokenDelta t + listDelta ts

/-- Spec-side predicate: starting from depth `d`, the running depth never
goes negative while walking `ts`. -/
def depthNonneg : Int → List Token → Bool
  | _, [] => true
  | d, t :: ts =>
    let d1 := d + tokenDelta t
    if d1 < 0 then false else depthNonneg d1 ts

/-- Spec-side predicate (the spec's *balanced nesting*): every prefix of
the body keeps the depth non-negative and the total depth change is zero,
i.e. every `endphased` inside has a matching earlier `phased`, so that
the next `endphased` token after the body is the matching terminator. -/
def balancedNesting (ts : List Token) : Bool :=
  depthNonneg 0 ts && decide (listDelta ts = 0)

lemma parseAux_exhaust (ts : List Token) : ∀ d : Int, depthNonneg d ts = true →
    parseAux d ts = (ts, [], d + listDelta ts) := by
  induction ts with
  | nil => intro d _; simp [parseAux, listDelta]
  | cons t ts ih =>
    intro d h
    simp only [depthNonneg] at h
    by_cases hneg : d + tokenDelta t < 0
    · simp [hneg] at h
    · simp only [hneg, if_false] at h
      simp only [parseAux, hneg, if_false]
      rw [ih _ h]
      simp [listDelta]
      omega

lemma parseAux_break (body : List Token) : ∀ d : Int, ∀ rest : List Token,
    depthNonneg d body = true → d + listDelta body = 0 →
    parseAux d (body ++ endphasedToken :: rest) = (body, rest, -1) := by
  induction body with
  | nil =>
    intro d rest _ h2
    simp only [listDelta, add_zero] at h2
    subst h2
    simp [parseAux, tokenDelta, endphasedToken]
  | cons t ts ih =>
    intro d rest h1 h2
    simp only [depthNonneg] at h1
    by_cases hneg : d + tokenDelta t < 0
    · simp [hneg] at h1
    · simp only [hneg, if_false] at h1
      simp only [List.cons_append, parseAux, hneg, if_false, List.append_eq]
      rw [ih _ _ h1 (by simp only [listDelta] at h2; omega)]

lemma depthNonneg_final (ts : List Token) : ∀ d : Int, 0 ≤ d →
    depthNonneg d ts = true → 0 ≤ d + listDelta ts := by
  induction ts with
  | nil => intro d h0 _; simpa [listDelta] using h0
  | cons t ts ih =>
    intro d h0 h
    simp only [depthNonneg] at h
    by_cases hneg : d + tokenDelta t < 0
    · simp [hneg] at h
    · simp only [hneg, if_false] at h
      have := ih _ (by omega) h
      simp only [listDelta]
      omega

/-- A balanced body followed by an `endphased` parses to exactly the body
with the terminator consumed but not yielded. -/
lemma parse_break_ok (body rest : List Token) (h : balancedNesting body = true) :
    parse (body ++ endphasedToken :: rest) = Except.ok (body, rest) := by
  have h1 : depthNonneg 0 body = true := by
    have := (Bool.and_eq_true _ _).mp h
    exact this.1
  have h2 : listDelta body = 0 := by
    have := (Bool.and_eq_true _ _).mp h
    exact of_decide_eq_true this.2
  unfold parse
  rw [parseAux_break body 0 rest h1 (by omega)]
  norm_num

/-- `parse` only ever raises the unclosed-block error naming `endphased`. -/
lemma parse_error_shape (ts : List Token) (e : Err) (h : parse ts = Except.error e) :
    e = Err.unclosedBlockTag ["endphased"] := by
  unfold parse at h
  by_cases hc : (parseAux 0 ts).2.1 = [] ∧ 0 ≤ (parseAux 0 ts).2.2
  · simp only [hc, if_true] at h
    exact ((Except.error.injEq _ _).mp h).symm
  · simp [hc] at h

/-- Claim C1: positioned just after a `{% phased %}` opener, `parse`
yields exactly the ordered tokens of the balanced body up to the matching
`endphased` — depth starts at 0, nested `phased`/`endphased` block tokens
move it up and down, and consumption stops, with the terminating
`endphased` excluded from the yield, exactly when the depth would go
negative.  In particular the begin and end tokens of a fully nested
phased block both appear verbatim in the yielded sequence. -/
theorem parse_yields_balanced_body (body rest : List Token)
    (h : balancedNesting body = true) :
    parse (body ++ endphasedToken :: rest) = Except.ok (body, rest) ∧
    (∀ b1 b2 b3 : List Token, body = b1 ++ phasedToken :: b2 ++ endphasedToken :: b3 →
      phasedToken ∈ body ∧ endphasedToken ∈ body) := by
  refine ⟨parse_break_ok body rest h, ?_⟩
  intro b1 b2 b3 hb
  subst hb
  constructor
  · simp
  · simp

/-- Witness for C1 at a concrete nested body: the yielded sequence is the
whole body, inner `phased` and `endphased` included, and the outer
terminator is excluded. -/
theorem parse_yields_balanced_body_witness :
    balancedNesting [phasedToken, ⟨TokenType.text, "x"⟩, endphasedToken] = true ∧
    parse ([phasedToken, ⟨TokenType.text, "x"⟩, endphasedToken] ++
        endphasedToken :: [⟨TokenType.text, "after"⟩]) =
      Except.ok ([phasedToken, ⟨TokenType.text, "x"⟩, endphasedToken],
        [⟨TokenType.text, "after"⟩]) :=
  ⟨by decide,
    (parse_yields_balanced_body [phasedToken, ⟨TokenType.text, "x"⟩, endphasedToken]
      [⟨TokenType.text, "after"⟩] (by decide)).1⟩

/-- Claim C3: when the stream runs out while the depth is still
non-negative (no matching `endphased`), `parse` fails with the
unclosed-block error naming `endphased`; it never fails this way when a
matching `endphased` is present. -/
theorem parse_unclosed_block (ts body rest : List Token) :
    (depthNonneg 0 ts = true → parse ts = Except.error (Err.unclosedBlockTag ["endphased"])) ∧
    (balancedNesting body = true →
      parse (body ++ endphasedToken :: rest) ≠
        Except.error (Err.unclosedBlockTag ["endphased"])) := by
  constructor
  · intro h
    unfold parse
    rw [parseAux_exhaust ts 0 h]
    have hfin : 0 ≤ (0 : Int) + listDelta ts := depthNonneg_final ts 0 le_rfl h
    simp only [zero_add] at hfin
    simp [hfin]
  · intro h
    rw [parse_break_ok body rest h]
    simp

/-- Witness for C3: a lone opener raises the unclosed-block error, while
a closed block does not. -/
theorem parse_unclosed_block_witness :
    depthNonneg 0 [phasedToken, endphasedToken, ⟨TokenType.text, "x"⟩] = true ∧
    parse [phasedToken, endphasedToken, ⟨TokenType.text, "x"⟩] =
      Except.error (Err.unclosedBlockTag ["endphased"]) ∧
    balancedNesting [⟨TokenType.text, "b"⟩] = true ∧
    parse ([⟨TokenType.text, "b"⟩] ++ endphasedToken :: []) ≠
      Except.error (Err.unclosedBlockTag ["endphased"]) :=
  ⟨by decide,
    (parse_unclosed_block [phasedToken, endphasedToken, ⟨TokenType.text, "x"⟩]
      [⟨TokenType.text, "b"⟩] []).1 (by decide),
    by decide,
    (parse_unclosed_block [phasedToken, endphasedToken, ⟨TokenType.text, "x"⟩]
      [⟨TokenType.text, "b"⟩] []).2 (by decide)⟩

/-- A rendering context: a chain of name-to-value layers, earliest layer
first; later layers shadow earlier ones.  Values are strings in this
embedding. -/
abbrev Ctx := List (List (String × String))

/-- The storage built per phased block (a Django `Context()` used as a
plain mapping): an insertion-ordered association list. -/
abbrev Storage := List (String × String)

/-- Association-list lookup (first binding of the key wins). -/
def lookupA : List (String × String) → String → Option String
  | [], _ => none
  | (k0, v0) :: rest, k => if k0 = k then some v0 else lookupA rest k

/-- Mapping update `storage[k] = v`: replace the binding in place if the
key is present, else append it. -/
def setKey : List (String × String) → String → String → List (String × String)
  | [], k, v => [(k, v)]
  | (k0, v0) :: rest, k, v =>
    if k0 = k then (k0, v) :: rest else (k0, v0) :: setKey rest k v

/-- Fold a list of bindings into a storage, later bindings overriding
earlier ones. -/
def updateAll (st : Storage) (entries : List (String × String)) : Storage :=
  entries.foldl (fun s kv => setKey s kv.1 kv.2) st

/-- Modelled from the spec: `flatten_context` of `phased/utils.py` (not
under src/) — flattens every layer of the context chain into one mapping,
later layers overriding earlier ones. -/
def flattenContext (ctx : Ctx) : Storage :=
  ctx.foldl (fun s layer => updateAll s layer) []

/-- Modelled from the spec: Django `Variable(name).resolve(context)`, an
external collaborator — variable lookup across the layer chain with later
layers shadowing earlier ones, failing (`VariableDoesNotExist`) when the
name is absent. -/
def resolveVar (ctx : Ctx) (name : String) : Option String :=
  lookupA (flattenContext ctx) name

/-- Is the character a quote character (`"`, codepoint 34, or `'`,
codepoint 39)?  These are the members of the tuple `('"', "'")` in the
source. -/
def isQuoteChar (c : Char) : Bool :=
  c.toNat = 34 || c.toNat = 39

/-- The quote-stripping step of `PhasedNode.render`: when the first
character is a quote and the last character equals the first
(`var_name[0] in ('"', "'") and var_name[-1] == var_name[0]`), the name
becomes `var_name[1:-1]`.  On a one-character quote name the first and
last character coincide, so it is stripped to the empty string, exactly
as Python's slicing does. -/
def stripQuotes (s : String) : String :=
  match s.data with
  | [] => s
  | c :: cs =>
    if isQuoteChar c && ((c :: cs).getLast? == some c) then
      String.mk ((c :: cs).drop 1).dropLast
    else s

/-- The variable-capture loop of `PhasedNode.render`: resolve each
requested name (after quote stripping) into the storage, raising
`TemplateSyntaxError` naming the (stripped) variable on the first
resolution failure. -/
def resolveVariables (ctx : Ctx) : List String → Storage → Except Err Storage
  | [], st => Except.ok st
  | n :: ns, st =>
    let n1 := stripQuotes n
    match resolveVar ctx n1 with
    | some v => resolveVariables ctx ns (setKey st n1 v)
    | none => Except.error (Err.unknownVariable n1)

/-- The storage `PhasedNode.render` builds before the CSRF backup: starts
from the whole flattened context when `PHASED_KEEP_CONTEXT` is set
(`storage.update(flatten_context(context))` into the fresh `Context()`),
else from the empty storage, then runs the variable-capture loop. -/
def captureStorage (keep : Bool) (ctx : Ctx) (names : List String) : Except Err Storage :=
  resolveVariables ctx names (if keep then flattenContext ctx else [])

/-- Modelled from the spec: `backup_csrf_token` of `phased/utils.py` (not
under src/) — when the ambient context holds a value under the reserved
token name, the storage entry is replaced by a sentinel meaning re-fetch
at second pass, since such values are non-serializable lazy proxies. -/
def backupCsrfToken (ctx : Ctx) (st : Storage) : Storage :=
  match resolveVar ctx "csrf_token" with
  | some _ => setKey st "csrf_token" "CSRF_TOKEN_SENTINEL"
  | none => st

/-- Modelled from the spec: `pickle_context` of `phased/utils.py` (not
under src/) — `serialize(Snapshot) -> text`, a plain textual encoding of
the snapshot bag. -/
def pickleContext (st : Storage) : String :=
  "#context:" ++ String.join (st.map (fun kv => kv.1 ++ "=" ++ kv.2 ++ ";"))

/-- The two settings the source reads: `PHASED_KEEP_CONTEXT` (via
`getattr(settings, ..., False)`) and `PHASED_SECRET_DELIMITER`. -/
structure Settings where
  PHASED_KEEP_CONTEXT : Bool := false
  PHASED_SECRET_DELIMITER : String
deriving DecidableEq

/-- The node generated by the `{% phased %}` tag: the literal content of
the block and the requested variable names. -/
structure PhasedNode where
  content : String
  var_names : List String
deriving DecidableEq

/-- `PhasedNode.render`: build the storage (whole context and/or the
requested variables), back up the CSRF token, and return the marker
`'%(delimiter)s%(content)s%(pickled)s%(delimiter)s'`. -/
def PhasedNode.render (s : Settings) (node : PhasedNode) (ctx : Ctx) : Except Err String :=
  match captureStorage s.PHASED_KEEP_CONTEXT ctx node.var_names with
  | Except.error e => Except.error e
  | Except.ok st =>
    Except.ok (s.PHASED_SECRET_DELIMITER ++ node.content ++
      pickleContext (backupCsrfToken ctx st) ++ s.PHASED_SECRET_DELIMITER)

lemma lookupA_setKey (l : List (String × String)) (k v : String) : ∀ q : String,
    lookupA (setKey l k v) q = if k = q then some v else lookupA l q := by
  induction l with
  | nil => intro q; simp [setKey, lookupA]
  | cons kv rest ih =>
    intro q
    obtain ⟨k0, v0⟩ := kv
    by_cases hk : k0 = k
    · subst hk
      simp only [setKey, if_pos rfl, lookupA]
      by_cases hq : k0 = q
      · subst hq; simp
      · simp [hq]
    · simp only [setKey, if_neg hk, lookupA]
      by_cases hq : k0 = q
      · subst hq
        have : ¬ k = k0 := fun h => hk h.symm
        simp [this]
      · simp [hq, ih]

lemma resolveVariables_lookup (ctx : Ctx) (ns : List String) :
    ∀ st0 st : Storage, resolveVariables ctx ns st0 = Except.ok st → ∀ k : String,
      ((∃ n ∈ ns, stripQuotes n = k) → lookupA st k = resolveVar ctx k) ∧
      (¬(∃ n ∈ ns, stripQuotes n = k) → lookupA st k = lookupA st0 k) := by
  induction ns with
  | nil =>
    intro st0 st h k
    simp only [resolveVariables] at h
    cases h
    constructor
    · intro hex; simp at hex
    · intro _; rfl
  | cons n ns ih =>
    intro st0 st h k
    simp only [resolveVariables] at h
    cases hv : resolveVar ctx (stripQuotes n) with
    | none => rw [hv] at h; cases h
    | some v =>
      rw [hv] at h
      have ihk := ih (setKey st0 (stripQuotes n) v) st h k
      constructor
      · intro hex
        obtain ⟨m, hm, hmk⟩ := hex
        rcases List.mem_cons.mp hm with hm0 | hm1
        · subst hm0
          by_cases hrest : ∃ p ∈ ns, stripQuotes p = k
          · exact ihk.1 hrest
          · rw [ihk.2 hrest, lookupA_setKey, hmk, if_pos rfl, ← hmk, hv]
        · exact ihk.1 ⟨m, hm1, hmk⟩
      · intro hnex
        have hrest : ¬ ∃ p ∈ ns, stripQuotes p = k := by
          intro ⟨p, hp, hpk⟩; exact hnex ⟨p, List.mem_cons_of_mem _ hp, hpk⟩
        have hnk : ¬ stripQuotes n = k := by
          intro hnk; exact hnex ⟨n, List.mem_cons_self _ _, hnk⟩
        rw [ihk.2 hrest, lookupA_setKey, if_neg hnk]

lemma resolveVariables_ok_resolves (ctx : Ctx) (ns : List String) :
    ∀ st0 st : Storage, resolveVariables ctx ns st0 = Except.ok st →
      ∀ n ∈ ns, resolveVar ctx (stripQuotes n) ≠ none := by
  induction ns with
  | nil => intro st0 st _ n hn; simp at hn
  | cons m ns ih =>
    intro st0 st h n hn
    simp only [resolveVariables] at h
    cases hv : resolveVar ctx (stripQuotes m) with
    | none => rw [hv] at h; cases h
    | some v =>
      rw [hv] at h
      rcases List.mem_cons.mp hn with h0 | h1
      · subst h0; rw [hv]; simp
      · exact ih _ _ h n h1

lemma resolveVariables_first_fail (ctx : Ctx) (ns : List String)
    (hex : ∃ n ∈ ns, resolveVar ctx (stripQuotes n) = none) :
    ∀ st0 : Storage, ∃ m ∈ ns, resolveVar ctx (stripQuotes m) = none ∧
      resolveVariables ctx ns st0 = Except.error (Err.unknownVariable (stripQuotes m)) := by
  induction ns with
  | nil => obtain ⟨n, hn, _⟩ := hex; simp at hn
  | cons n ns ih =>
    intro st0
    cases hv : resolveVar ctx (stripQuotes n) with
    | none =>
      exact ⟨n, List.mem_cons_self _ _, hv, by simp only [resolveVariables, hv]⟩
    | some v =>
      have hex1 : ∃ m ∈ ns, resolveVar ctx (stripQuotes m) = none := by
        obtain ⟨m, hm, hmv⟩ := hex
        rcases List.mem_cons.mp hm with h0 | h1
        · subst h0; rw [hv] at hmv; cases hmv
        · exact ⟨m, h1, hmv⟩
      obtain ⟨m, hm, hmv, hrun⟩ := ih hex1 (setKey st0 (stripQuotes n) v)
      exact ⟨m, List.mem_cons_of_mem _ hm, hmv,
        by simp only [resolveVariables, hv]; exact hrun⟩

/-- Claim C4: when a requested name (after quote stripping) cannot be
resolved in the context, `PhasedNode.render` raises the unknown-variable
error identifying that name, and returns no partial marker output. -/
theorem render_unknown_variable_aborts (s : Settings) (node : PhasedNode) (ctx : Ctx)
    (h : ∃ n ∈ node.var_names, resolveVar ctx (stripQuotes n) = none) :
    ∃ m ∈ node.var_names, resolveVar ctx (stripQuotes m) = none ∧
      PhasedNode.render s node ctx = Except.error (Err.unknownVariable (stripQuotes m)) ∧
      ∀ out : String, PhasedNode.render s node ctx ≠ Except.ok out := by
  obtain ⟨m, hm, hmv, hrun⟩ := resolveVariables_first_fail ctx node.var_names h
    (if s.PHASED_KEEP_CONTEXT then flattenContext ctx else [])
  have hrender : PhasedNode.render s node ctx =
      Except.error (Err.unknownVariable (stripQuotes m)) := by
    unfold PhasedNode.render captureStorage
    rw [hrun]
  exact ⟨m, hm, hmv, hrender, fun out hout => by rw [hrender] at hout; cases hout⟩

/-- Witness for C4: a single unresolvable name makes the whole render
fail with the error naming it. -/
theorem render_unknown_variable_aborts_witness :
    (∃ n ∈ ["missing"], resolveVar [] (stripQuotes n) = none) ∧
    ∃ m ∈ ["missing"], resolveVar [] (stripQuotes m) = none ∧
      PhasedNode.render ⟨false, "D"⟩ ⟨"C", ["missing"]⟩ [] =
        Except.error (Err.unknownVariable (stripQuotes m)) ∧
      ∀ out : String, PhasedNode.render ⟨false, "D"⟩ ⟨"C", ["missing"]⟩ [] ≠ Except.ok out :=
  ⟨by decide, render_unknown_variable_aborts ⟨false, "D"⟩ ⟨"C", ["missing"]⟩ [] (by decide)⟩

/-- Claim C5: the snapshot built by the capture step of
`PhasedNode.render` contains every variable reachable in the ambient
context when `PHASED_KEEP_CONTEXT` is set, and otherwise exactly the
(quote-stripped) requested names; every requested name is stored with its
value as resolved at capture time. -/
theorem capture_whole_or_exact (keep : Bool) (ctx : Ctx) (names : List String) (st : Storage)
    (h : captureStorage keep ctx names = Except.ok st) :
    (keep = true → ∀ k : String, lookupA (flattenContext ctx) k ≠ none → lookupA st k ≠ none) ∧
    (keep = false → ∀ k : String, lookupA st k ≠ none ↔ ∃ n ∈ names, stripQuotes n = k) ∧
    (∀ n ∈ names, lookupA st (stripQuotes n) = resolveVar ctx (stripQuotes n)) := by
  unfold captureStorage at h
  refine ⟨?_, ?_, ?_⟩
  · rintro rfl k hk
    rw [if_pos rfl] at h
    have hl := resolveVariables_lookup ctx names _ _ h k
    by_cases hex : ∃ n ∈ names, stripQuotes n = k
    · rw [hl.1 hex]; exact hk
    · rw [hl.2 hex]; exact hk
  · rintro rfl k
    rw [if_neg Bool.false_ne_true] at h
    have hl := resolveVariables_lookup ctx names _ _ h k
    constructor
    · intro hk
      by_contra hex
      rw [hl.2 hex] at hk
      exact hk rfl
    · intro hex
      rw [hl.1 hex]
      obtain ⟨n, hn, hnk⟩ := hex
      rw [← hnk]
      exact resolveVariables_ok_resolves ctx names _ _ h n hn
  · intro n hn
    have hl := resolveVariables_lookup ctx names _ _ h (stripQuotes n)
    exact hl.1 ⟨n, hn, rfl⟩

/-- Witness for C5 in exact-capture mode: the snapshot holds exactly the
requested name with its capture-time value. -/
theorem capture_whole_or_exact_witness :
    captureStorage false [[("x", "1"), ("y", "2")]] ["x"] = Except.ok [("x", "1")] ∧
    ((false = true → ∀ k : String,
        lookupA (flattenContext [[("x", "1"), ("y", "2")]]) k ≠ none →
        lookupA [("x", "1")] k ≠ none) ∧
      (false = false → ∀ k : String,
        lookupA [("x", "1")] k ≠ none ↔ ∃ n ∈ ["x"], stripQuotes n = k) ∧
      (∀ n ∈ ["x"], lookupA [("x", "1")] (stripQuotes n) =
        resolveVar [[("x", "1"), ("y", "2")]] (stripQuotes n))) :=
  ⟨by decide, capture_whole_or_exact false [[("x", "1"), ("y", "2")]] ["x"] [("x", "1")]
    (by decide)⟩

/-- Counterexample for C2: the marker produced by `PhasedNode.render` is
`DELIM + content + pickled + DELIM` — there is no delimiter between the
literal content section and the serialized-snapshot section, so the
output differs from the claimed
`DELIM + literal + DELIM + serialized + DELIM` layout already for a
trivial block. -/
theorem render_marker_two_delimiters_cex :
    PhasedNode.render ⟨false, "DELIM"⟩ ⟨"B", []⟩ [] =
      Except.ok ("DELIM" ++ "B" ++ pickleContext [] ++ "DELIM") ∧
    "DELIM" ++ "B" ++ pickleContext [] ++ "DELIM" ≠
      "DELIM" ++ "B" ++ "DELIM" ++ pickleContext [] ++ "DELIM" := by
  constructor
  · rfl
  · decide

/-- Claim C2 (amended): for every literal content and snapshot, the
marker text produced by `PhasedNode.render` is exactly
`DELIM + literal + serialized_snapshot + DELIM`: the serialized snapshot
(after the CSRF backup) immediately follows the literal content with no
delimiter between them, and the configured delimiter occurs as prefix
and suffix only. -/
theorem render_marker_layout (s : Settings) (node : PhasedNode) (ctx : Ctx) (st : Storage)
    (h : captureStorage s.PHASED_KEEP_CONTEXT ctx node.var_names = Except.ok st) :
    PhasedNode.render s node ctx =
      Except.ok (s.PHASED_SECRET_DELIMITER ++ node.content ++
        pickleContext (backupCsrfToken ctx st) ++ s.PHASED_SECRET_DELIMITER) := by
  unfold PhasedNode.render
  rw [h]

/-- Witness for the amended C2 at a concrete block and snapshot. -/
theorem render_marker_layout_witness :
    captureStorage false [[("x", "1")]] ["x"] = Except.ok [("x", "1")] ∧
    PhasedNode.render ⟨false, "DELIM"⟩ ⟨"B", ["x"]⟩ [[("x", "1")]] =
      Except.ok ("DELIM" ++ "B" ++
        pickleContext (backupCsrfToken [[("x", "1")]] [("x", "1")]) ++ "DELIM") :=
  ⟨by decide,
    render_marker_layout ⟨false, "DELIM"⟩ ⟨"B", ["x"]⟩ [[("x", "1")]] [("x", "1")] (by decide)⟩

/-- Counterexample for C8: the requested name consisting of one double
quote character is not quoted in the claim's sense (its length is below
2), yet `PhasedNode.render` does not resolve it unchanged: Python's
`var_name[0]` and `var_name[-1]` are the same character, so the slice
`var_name[1:-1]` turns it into the empty string, whose resolution fails
even though the one-character name itself resolves in the context. -/
theorem render_single_quote_name_cex :
    ("\"".length < 2) ∧
    resolveVar [[("\"", "V")]] "\"" = some "V" ∧
    stripQuotes "\"" = "" ∧
    PhasedNode.render ⟨false, "D"⟩ ⟨"C", ["\""]⟩ [[("\"", "V")]] =
      Except.error (Err.unknownVariable "") := by
  refine ⟨by decide, by decide, by decide, ?_⟩
  decide

/-- Claim C8 (amended): a requested name of length at least 2 whose first
character is a quote matched by its last character is stripped of exactly
that pair before resolution; a name consisting of a single quote
character is stripped to the empty string (its first and last character
coincide); every other name is resolved unchanged.  The capture step of
`PhasedNode.render` resolves and stores exactly the stripped name, and
fails naming the stripped name when it does not resolve. -/
theorem strip_quotes_before_resolving (s : Settings) (ctx : Ctx) (content n : String)
    (c : Char) (cs : List Char) (hd : n.data = c :: cs) :
    (isQuoteChar c = true → (c :: cs).getLast? = some c →
      stripQuotes n = String.mk cs.dropLast) ∧
    (¬(isQuoteChar c = true ∧ (c :: cs).getLast? = some c) → stripQuotes n = n) ∧
    (cs = [] → isQuoteChar c = true → stripQuotes n = "") ∧
    (∀ v : String, resolveVar ctx (stripQuotes n) = some v →
      captureStorage false ctx [n] = Except.ok [(stripQuotes n, v)]) ∧
    (resolveVar ctx (stripQuotes n) = none →
      PhasedNode.render s ⟨content, [n]⟩ ctx =
        Except.error (Err.unknownVariable (stripQuotes n))) := by
  have hstrip : stripQuotes n =
      if isQuoteChar c && ((c :: cs).getLast? == some c) then String.mk cs.dropLast
      else n := by
    unfold stripQuotes
    rw [hd]
    rfl
  have hcap : captureStorage false ctx [n] =
      match resolveVar ctx (stripQuotes n) with
      | some v => Except.ok [(stripQuotes n, v)]
      | none => Except.error (Err.unknownVariable (stripQuotes n)) := by
    simp only [captureStorage, resolveVariables]
    cases hv : resolveVar ctx (stripQuotes n) with
    | some v => simp [resolveVariables, setKey]
    | none => simp
  refine ⟨?_, ?_, ?_, ?_, ?_⟩
  · intro hq hl
    rw [hstrip, hq, hl]
    simp
  · intro hn
    rw [hstrip]
    by_cases hq : isQuoteChar c = true
    · have hl : ¬ (c :: cs).getLast? = some c := fun hl => hn ⟨hq, hl⟩
      simp [hq, hl]
    · simp [Bool.eq_false_iff.mpr hq]
  · rintro rfl hq
    rw [hstrip, hq]
    simp
  · intro v hv
    rw [hcap, hv]
  · intro hv
    have hfail : captureStorage s.PHASED_KEEP_CONTEXT ctx [n] =
        Except.error (Err.unknownVariable (stripQuotes n)) := by
      simp only [captureStorage, resolveVariables]
      rw [hv]
    simp only [PhasedNode.render]
    rw [hfail]

/-- Witness for the amended C8: a doubly quoted name is stripped once and
resolved under the stripped key. -/
theorem strip_quotes_before_resolving_witness :
    (("\"x\"" : String).data = '"' :: ['x', '"']) ∧
    (∀ v : String, resolveVar [[("x", "1")]] (stripQuotes "\"x\"") = some v →
      captureStorage false [[("x", "1")]] ["\"x\""] =
        Except.ok [(stripQuotes "\"x\"", v)]) ∧
    captureStorage false [[("x", "1")]] ["\"x\""] = Except.ok [("x", "1")] :=
  ⟨by decide,
    (strip_quotes_before_resolving ⟨false, "D"⟩ [[("x", "1")]] "C" "\"x\""
      '"' ['x', '"'] (by decide)).2.2.2.1,
    by decide⟩

/-- The whitespace class Python's `str.split()` splits on. -/
def isSplitWhitespace (c : Char) : Bool :=
  c = ' ' || c = '\t' || c = '\n' || c = '\r'

def splitContentsAux : List Char → List Char → List String
  | [], cur => if cur.isEmpty then [] else [String.mk cur.reverse]
  | ch :: chs, cur =>
    if isSplitWhitespace ch then
      if cur.isEmpty then splitContentsAux chs []
      else String.mk cur.reverse :: splitContentsAux chs []
    else splitContentsAux chs (ch :: cur)

/-- Python's `token.contents.split()`: split on whitespace runs, yielding
no empty pieces. -/
def splitContents (s : String) : List String :=
  splitContentsAux s.data []

/-- The re-serialization dictionary of the `phased` tag function: a block
token is formatted back as `\x7b% contents %\x7d`, a variable token as
`\x7b\x7b contents \x7d\x7d`, a comment token as `\x7b# contents #\x7d`,
and a text token is passed through. -/
def formatToken (t : Token) : String :=
  match t.token_type with
  | TokenType.block => "\x7b% " ++ t.contents ++ " %\x7d"
  | TokenType.var => "\x7b\x7b " ++ t.contents ++ " \x7d\x7d"
  | TokenType.comment => "\x7b# " ++ t.contents ++ " #\x7d"
  | TokenType.text => t.contents

/-- Modelled from the spec (4.1): the original textual source of a token
— a variable reference rewrapped in its delimiters, a block tag in its, a
comment in its, plain text passed through. -/
def sourceText (t : Token) : String :=
  match t.token_type with
  | TokenType.text => t.contents
  | TokenType.var => "\x7b\x7b " ++ t.contents ++ " \x7d\x7d"
  | TokenType.comment => "\x7b# " ++ t.contents ++ " #\x7d"
  | TokenType.block => "\x7b% " ++ t.contents ++ " %\x7d"

/-- The `phased` tag function: re-serialize the tokens consumed by
`parse` into the literal, split the tag token's contents, and check that
the second argument is `with`.  The source's minimum-one-variable check
sits inside the same branch directly after the unconditional raise; it is
kept here as the dead continuation of the failing bind. -/
def phased (stream : List Token) (tagContents : String) : Except Err PhasedNode :=
  match parse stream with
  | Except.error e => Except.error e
  | Except.ok (body, _) =>
    let literal := String.join (body.map formatToken)
    let tokens := splitContents tagContents
    if tokens.length > 1 && !(tokens.get? 1 == some "with") then
      Except.bind (Except.error Err.secondArgumentMustBeWith : Except Err Unit) (fun _ =>
        if tokens.length == 2 then Except.error Err.atLeastOneContextVariable
        else Except.ok ⟨literal, tokens.drop 2⟩)
    else Except.ok ⟨literal, tokens.drop 2⟩

/-- Claim C6: the literal content stored by the `phased` tag is the
concatenation, over exactly the tokens consumed by `parse`, of each
token's original source syntax — block tokens rewrapped as
`\x7b% contents %\x7d`, variable tokens as `\x7b\x7b contents \x7d\x7d`,
comment tokens as `\x7b# contents #\x7d`, text tokens passed through
unchanged. -/
theorem phased_literal_reserializes (stream : List Token) (tagContents : String)
    (ys rem : List Token) (node : PhasedNode)
    (h1 : parse stream = Except.ok (ys, rem))
    (h2 : phased stream tagContents = Except.ok node) :
    node.content = String.join (ys.map sourceText) := by
  have hfs : ∀ t : Token, formatToken t = sourceText t := by
    intro t
    cases ht : t.token_type <;> simp [formatToken, sourceText, ht]
  unfold phased at h2
  rw [h1] at h2
  simp only [] at h2
  split at h2
  · simp [Except.bind] at h2
  · have h3 := (Except.ok.injEq _ _).mp h2
    rw [← h3]
    rw [funext hfs]

/-- Witness for C6: a one-variable body re-serializes to its rewrapped
source syntax. -/
theorem phased_literal_reserializes_witness :
    parse [⟨TokenType.var, "x"⟩, endphasedToken] =
      Except.ok ([⟨TokenType.var, "x"⟩], []) ∧
    phased [⟨TokenType.var, "x"⟩, endphasedToken] "phased" =
      Except.ok ⟨"\x7b\x7b x \x7d\x7d", []⟩ ∧
    (⟨"\x7b\x7b x \x7d\x7d", []⟩ : PhasedNode).content =
      String.join ([⟨TokenType.var, "x"⟩].map sourceText) :=
  ⟨by decide, by decide,
    phased_literal_reserializes [⟨TokenType.var, "x"⟩, endphasedToken] "phased"
      [⟨TokenType.var, "x"⟩] [] ⟨"\x7b\x7b x \x7d\x7d", []⟩ (by decide) (by decide)⟩

/-- Claim C9: `\x7b% phased with %\x7d` — the `with` keyword followed by
zero variable names — raises no error and yields a node with an empty
requested-variable list; the source's at-least-one-variable check sits
directly after an unconditional raise inside the same branch, so it is
unreachable and `phased` never raises that error on any input. -/
theorem phased_with_no_names_ok (stream : List Token) (tagContents : String) :
    phased [endphasedToken] "phased with" = Except.ok ⟨"", []⟩ ∧
    phased stream tagContents ≠ Except.error Err.atLeastOneContextVariable := by
  constructor
  · decide
  · intro hbad
    unfold phased at hbad
    cases hp : parse stream with
    | error e =>
      rw [hp] at hbad
      have he := parse_error_shape stream e hp
      subst he
      simp at hbad
    | ok pr =>
      obtain ⟨body, rem⟩ := pr
      rw [hp] at hbad
      simp only [] at hbad
      split at hbad
      · simp [Except.bind] at hbad
      · simp at hbad

/-- Witness instantiating C9 at concrete inputs. -/
theorem phased_with_no_names_ok_witness :
    phased [endphasedToken] "phased with" = Except.ok ⟨"", []⟩ ∧
    phased [] "x" ≠ Except.error Err.atLeastOneContextVariable :=
  ⟨(phased_with_no_names_ok [] "x").1, (phased_with_no_names_ok [] "x").2⟩

/-- The fragment cache, keyed by the computed cache key. -/
abbrev Cache := List (String × String)

/-- Modelled from the spec (4.5): Django's `CacheNode.render`, the
external get-or-render fragment cache — on a hit return the cached
pre-second-pass text unchanged, on a miss render the fragment, store the
raw marker-bearing text under the key, and return it.  `fragment` is the
text the nodelist renders to on a miss. -/
def cacheNodeRender (cache : Cache) (key fragment : String) : String × Cache :=
  match lookupA cache key with
  | some cached => (cached, cache)
  | none => (fragment, setKey cache key fragment)

/-- `PhasedCacheNode.render`: `content = super().render(context)`
followed by `return second_pass_render(context["request"], content)`.
The second-pass renderer lives in `phased/utils.py`, outside the file
under verification, so it is a function parameter here and the theorems
hold for every second-pass renderer. -/
def phasedCacheNodeRender (second_pass_render : String → String → String)
    (ctx : Ctx) (cache : Cache) (key fragment : String) : Except Err String × Cache :=
  let r := cacheNodeRender cache key fragment
  match resolveVar ctx "request" with
  | some req => (Except.ok (second_pass_render req r.1), r.2)
  | none => (Except.error Err.requestKeyError, r.2)

/-- Claim C7: on both cache hit and cache miss, the text
`PhasedCacheNode.render` returns to the caller is the underlying cache
node's result passed through the second-pass renderer; on a miss the
cache stores the raw pre-second-pass fragment. -/
theorem phasedcache_always_second_pass (second_pass_render : String → String → String)
    (ctx : Ctx) (cache : Cache) (key fragment req : String)
    (h : resolveVar ctx "request" = some req) :
    (phasedCacheNodeRender second_pass_render ctx cache key fragment).1 =
      Except.ok (second_pass_render req (cacheNodeRender cache key fragment).1) ∧
    (∀ cached : String, lookupA cache key = some cached →
      (phasedCacheNodeRender second_pass_render ctx cache key fragment).1 =
        Except.ok (second_pass_render req cached)) ∧
    (lookupA cache key = none →
      (phasedCacheNodeRender second_pass_render ctx cache key fragment).1 =
        Except.ok (second_pass_render req fragment) ∧
      (phasedCacheNodeRender second_pass_render ctx cache key fragment).2 =
        setKey cache key fragment) := by
  refine ⟨?_, ?_, ?_⟩
  · simp only [phasedCacheNodeRender]
    rw [h]
  · intro cached hc
    simp only [phasedCacheNodeRender, cacheNodeRender]
    rw [h, hc]
  · intro hc
    constructor
    · simp only [phasedCacheNodeRender, cacheNodeRender]
      rw [h, hc]
    · simp only [phasedCacheNodeRender, cacheNodeRender]
      rw [h, hc]

/-- Witness for C7 on a concrete hit and a concrete miss. -/
theorem phasedcache_always_second_pass_witness :
    resolveVar [[("request", "R")]] "request" = some "R" ∧
    ((phasedCacheNodeRender (fun a b => a ++ b) [[("request", "R")]] [] "k" "F").1 =
        Except.ok ((fun a b => a ++ b) "R" (cacheNodeRender [] "k" "F").1) ∧
      (∀ cached : String, lookupA [] "k" = some cached →
        (phasedCacheNodeRender (fun a b => a ++ b) [[("request", "R")]] [] "k" "F").1 =
          Except.ok ((fun a b => a ++ b) "R" cached)) ∧
      (lookupA [] "k" = none →
        (phasedCacheNodeRender (fun a b => a ++ b) [[("request", "R")]] [] "k" "F").1 =
          Except.ok ((fun a b => a ++ b) "R" "F") ∧
        (phasedCacheNodeRender (fun a b => a ++ b) [[("request", "R")]] [] "k" "F").2 =
          setKey [] "k" "F")) :=
  ⟨by decide,
    phasedcache_always_second_pass (fun a b => a ++ b) [[("request", "R")]] [] "k" "F" "R"
      (by decide)⟩

/-- Claim C10: when the context holds no `request` key,
`PhasedCacheNode.render` fails — `context["request"]` is looked up
unconditionally — and never degrades to returning the cached text
without a second pass. -/
theorem phasedcache_requires_request (second_pass_render : String → String → String)
    (ctx : Ctx) (cache : Cache) (key fragment : String)
    (h : resolveVar ctx "request" = none) :
    (phasedCacheNodeRender second_pass_render ctx cache key fragment).1 =
      Except.error Err.requestKeyError ∧
    ∀ out : String,
      (phasedCacheNodeRender second_pass_render ctx cache key fragment).1 ≠
        Except.ok out := by
  have h1 : (phasedCacheNodeRender second_pass_render ctx cache key fragment).1 =
      Except.error Err.requestKeyError := by
    simp only [phasedCacheNodeRender]
    rw [h]
  exact ⟨h1, fun out hout => by rw [h1] at hout; cases hout⟩

/-- Witness for C10: even with the fragment present in the cache, a
missing `request` key makes the render fail. -/
theorem phasedcache_requires_request_witness :
    resolveVar [] "request" = none ∧
    ((phasedCacheNodeRender (fun a b => a ++ b) [] [("k", "cached")] "k" "F").1 =
        Except.error Err.requestKeyError ∧
      ∀ out : String,
        (phasedCacheNodeRender (fun a b => a ++ b) [] [("k", "cached")] "k" "F").1 ≠
          Except.ok out) :=
  ⟨by decide,
    phasedcache_requires_request (fun a b => a ++ b) [] [("k", "cached")] "k" "F" (by decide)⟩
